import Mathlib

/-!
Verification of the dynamic request router of the grpc-gateway runtime
(files runtime/mux_dynamic.go and runtime/mux_dynamic_test.go).

Shallow embedding notes:
* Go strings are modelled by Lean strings; the Go byte-indexed slicing
  operations are modelled character-wise (all router-relevant inputs are
  ASCII, where bytes and characters coincide).
* A Pattern is opaque to the router: only its canonical string form
  (Pattern.String), its verb (Pattern.Verb) and its matching function
  (Pattern.Match) are consulted.  Match returning an error is modelled by
  Option (none = error).
* HandlerFunc values are opaque to the router; they are tracked by an
  identifier so that dispatch results can name the handler that was invoked.
* The Go map from method to handler slice is modelled by an association
  list; Go randomises map iteration order, the model fixes the list order
  as the iteration order of the fallback scan.
* isPathLengthFallback lives in mux.go, outside the verified files; it is
  an opaque configuration predicate.  The only request field the router
  mutates between its call sites is r.Method, so it is modelled as a
  function of the current method.  r.ParseForm is likewise modelled by its
  (stable) outcome: none for success, some msg for failure with message.
-/

namespace DynMux

/-- Character-wise model of the Go slice expression s[:n]. -/
def goTake (s : String) (n : Nat) : String := ⟨s.data.take n⟩

/-- Character-wise model of the Go slice expression s[n:]. -/
def goDrop (s : String) (n : Nat) : String := ⟨s.data.drop n⟩

/-- Model of Go len(s) (characters; bytes for the ASCII inputs involved). -/
def goLen (s : String) : Nat := s.data.length

/-- Model of Go strings.HasSuffix. -/
def goHasSuffix (s post : String) : Bool := post.data.isSuffixOf s.data

/-- Model of Go strings.HasPrefix. -/
def goHasPre (s pre : String) : Bool := s.data.take pre.data.length == pre.data

/-- Model of Go strings.ToUpper (character-wise). -/
def goToUpper (s : String) : String := ⟨s.data.map Char.toUpper⟩

/-- Model of Go strings.Split(s, "/") on the character list: splits at every
slash and always returns at least one (possibly empty) component. -/
def splitComps : List Char → List (List Char)
  | [] => [[]]
  | c :: rest =>
    match splitComps rest with
    | [] => [[]]
    | first :: others =>
      if c = '/' then [] :: first :: others else (c :: first) :: others

/-- Model of Go strings.LastIndex(s, ":"): character index of the last colon,
or -1 when there is none. -/
def goLastIndexColon (s : String) : Int :=
  (s.data.length : Int) - 1 -
    (match s.data.reverse.findIdx? (fun c => c = ':') with
     | some k => (k : Int)
     | none => (s.data.length : Int) - 1 + 1)

/-- The router's view of a compiled path pattern (runtime.Pattern): its
canonical string form (String()), its verb suffix (Verb(), empty if none)
and its matching function (Match(components, verb), none modelling a
non-nil error). -/
structure Pattern where
  str : String
  verb : String
  matchFn : List String → String → Option (List (String × String))

/-- A (pattern, handler) binding, Go struct handler.  The HandlerFunc is
opaque to the router and is tracked by an identifier. -/
structure handler where
  pat : Pattern
  h : Nat

/-- The route table s.handlers: map[string][]handler, modelled as an
association list from method to the ordered binding sequence. -/
abbrev Table := List (String × List handler)

/-- Go map read handlers[meth]: the value stored under the first matching
key, nil (the empty list) when the key is absent. -/
def lookupMeth (tbl : Table) (meth : String) : List handler :=
  match tbl.find? (fun e => e.1 == meth) with
  | some e => e.2
  | none => []

/-- Go map write handlers[meth] = hs: replaces the value under the key, or
appends a fresh entry when the key is absent. -/
def setMeth : Table → String → List handler → Table
  | [], meth, hs => [(meth, hs)]
  | (m, v) :: rest, meth, hs =>
    if m == meth then (meth, hs) :: rest else (m, v) :: setMeth rest meth hs

/-- Handle from mux_dynamic.go (lines 19-24): prepends the new binding to
the method's sequence. -/
def Handle (tbl : Table) (meth : String) (pat : Pattern) (hf : Nat) : Table :=
  setMeth tbl meth ({ pat := pat, h := hf } :: lookupMeth tbl meth)

/-- The span-copying loop shared by HandlerDeregister (both files) and the
variant Handle: for idx, h := range handlers — on every binding whose
pattern string equals patStr it appends the untouched span
handlers[offset:idx] to the accumulator and moves offset past the match.
The remaining iteration suffix rem stands for handlers[idx:].  Returns the
final (offset, newHandlers) pair. -/
def scanLoopAux (hs : List handler) (patStr : String) :
    List handler → Nat → Nat → List handler → Nat × List handler
  | [], _, offset, acc => (offset, acc)
  | b :: rem, idx, offset, acc =>
    if b.pat.str == patStr then
      scanLoopAux hs patStr rem (idx + 1) (idx + 1)
        (acc ++ (hs.drop offset).take (idx - offset))
    else
      scanLoopAux hs patStr rem (idx + 1) offset acc

/-- The span-copying loop run over the whole sequence. -/
def scanLoop (hs : List handler) (patStr : String) : Nat × List handler :=
  scanLoopAux hs patStr hs 0 0 []

/-- HandlerDeregister from mux_dynamic.go (lines 27-47): early return when
the method has no bindings, otherwise rebuild the sequence by the span
loop, append the final span handlers[offset:], and store the result. -/
def HandlerDeregister (tbl : Table) (meth : String) (pat : Pattern) : Table :=
  let handlers := lookupMeth tbl meth
  if handlers.length = 0 then tbl
  else
    let r := scanLoop handlers pat.str
    setMeth tbl meth (r.2 ++ handlers.drop r.1)

/-- The same span-copying loop as transcribed from the variant file
(mux_dynamic_test.go, second document); kept as a separate definition so
the two HandlerDeregister implementations can be compared. -/
def scanLoopVariantAux (hs : List handler) (patStr : String) :
    List handler → Nat → Nat → List handler → Nat × List handler
  | [], _, offset, acc => (offset, acc)
  | b :: rem, idx, offset, acc =>
    if b.pat.str == patStr then
      scanLoopVariantAux hs patStr rem (idx + 1) (idx + 1)
        (acc ++ (hs.drop offset).take (idx - offset))
    else
      scanLoopVariantAux hs patStr rem (idx + 1) offset acc

/-- The variant file's span-copying loop run over the whole sequence. -/
def scanLoopVariant (hs : List handler) (patStr : String) : Nat × List handler :=
  scanLoopVariantAux hs patStr hs 0 0 []

/-- HandlerDeregister as embedded in mux_dynamic_test.go (variant document,
lines 167-187); textually the same algorithm as the mux_dynamic.go one. -/
def HandlerDeregisterVariant (tbl : Table) (meth : String) (pat : Pattern) :
    Table :=
  let handlers := lookupMeth tbl meth
  if handlers.length = 0 then tbl
  else
    let r := scanLoopVariant handlers pat.str
    setMeth tbl meth (r.2 ++ handlers.drop r.1)

/-- Handle as embedded in mux_dynamic_test.go (variant document, lines
141-164): runs the span loop; when no binding matched (offset still 0) the
new binding is appended to the original sequence, otherwise the rebuilt
sequence plus the final span plus the new binding is stored. -/
def HandleVariant (tbl : Table) (meth : String) (pat : Pattern) (hf : Nat) :
    Table :=
  let handlers := lookupMeth tbl meth
  let r := scanLoopVariant handlers pat.str
  if r.1 = 0 then
    setMeth tbl meth (handlers ++ [{ pat := pat, h := hf }])
  else
    setMeth tbl meth (r.2 ++ handlers.drop r.1 ++ [{ pat := pat, h := hf }])

/-- The mutable per-dispatch matching state of ServeHTTP: the components
slice (whose last entry is overwritten in place by verb stripping) and the
memoized verb variable. -/
structure ScanState where
  components : List String
  verb : String
deriving DecidableEq

/-- The idx variable of the per-pattern verb handling (mux_dynamic.go lines
85-91): -1 unless the pattern has a verb and the last component carries the
":verb" suffix, in which case it is the split position
len(lastComponent) - len(patVerb) - 1. -/
def verbIdx (patVerb lastComponent : String) : Int :=
  if patVerb ≠ "" ∧ goHasSuffix lastComponent (":" ++ patVerb) then
    (goLen lastComponent : Int) - (goLen patVerb : Int) - 1
  else -1

/-- The state a candidate binding's Match call receives (mux_dynamic.go
lines 98-100): when idx > 0 the last component is overwritten with its
stripped form and the verb variable is set to the suffix; otherwise the
state is left as is. -/
def candidateState (patVerb : String) (st : ScanState) : ScanState :=
  let lastComponent := st.components.getLast?.getD ""
  let idx := verbIdx patVerb lastComponent
  if 0 < idx then
    { components := st.components.dropLast ++ [goTake lastComponent idx.toNat],
      verb := goDrop lastComponent (idx.toNat + 1) }
  else st

/-- Outcome of the primary method loop of ServeHTTP (lines 76-109): a
handler invocation, the early NotFound return at idx == 0, or falling
through to the cross-method scan with the final matching state. -/
inductive PrimaryOutcome where
  | invoked (h : Nat) (params : List (String × String))
  | colonNotFound
  | fallthru (st : ScanState)
deriving DecidableEq

/-- The primary loop of ServeHTTP over the effective method's bindings
(mux_dynamic.go lines 76-109), threading the mutated components/verb
state from candidate to candidate. -/
def primaryLoop : List handler → ScanState → PrimaryOutcome
  | [], st => .fallthru st
  | b :: rest, st =>
    let lastComponent := st.components.getLast?.getD ""
    let idx := verbIdx b.pat.verb lastComponent
    if idx = 0 then .colonNotFound
    else
      let st' := candidateState b.pat.verb st
      match b.pat.matchFn st'.components st'.verb with
      | some params => .invoked b.h params
      | none => primaryLoop rest st'

/-- An inbound request as the router sees it.  plf models
s.isPathLengthFallback(r) as a function of the current r.Method — that
predicate lives outside the verified files and is opaque configuration;
formErr models the stable outcome of r.ParseForm(). -/
structure Request where
  method : String
  path : String
  override : String
  plf : String → Bool
  formErr : Option String

/-- Where a dispatch terminates: a handler invocation with its path
parameters, a routingErrorHandler call with an HTTP status (400, 404 or
405), or an errorHandler call carrying an InvalidArgument status error
with the form-parse failure message. -/
inductive DispatchResult where
  | invoked (h : Nat) (params : List (String × String))
  | routingError (status : Nat)
  | formError (msg : String)
deriving DecidableEq

/-- The X-HTTP-Method-Override step of ServeHTTP (lines 62-70): when the
header is non-empty and the path-length-fallback condition holds, the
effective method becomes the upper-cased header value and the form is
parsed (failure aborting dispatch with the error message); otherwise the
method is left unchanged. -/
def overrideStep (r : Request) : Except String String :=
  if r.override ≠ "" ∧ r.plf r.method = true then
    match r.formErr with
    | some e => .error e
    | none => .ok (goToUpper r.override)
  else .ok r.method

/-- The inner fallback loop body over one method's bindings (lines
117-138): the first binding whose pattern matches the memoized
components/verb decides the result — fallback invocation after a form
parse (failure giving the form error) when the path-length-fallback
condition holds, MethodNotAllowed otherwise. -/
def fallbackInner (hs : List handler) (r : Request) (meth : String)
    (st : ScanState) : Option DispatchResult :=
  match hs with
  | [] => none
  | b :: rest =>
    match b.pat.matchFn st.components st.verb with
    | some params =>
      some (if r.plf meth = true then
              match r.formErr with
              | some e => .formError e
              | none => .invoked b.h params
            else .routingError 405)
    | none => fallbackInner rest r meth st

/-- The cross-method fallback scan of ServeHTTP (lines 113-143): every
table entry except the effective method's is scanned in iteration order;
if no binding anywhere matches the result is NotFound. -/
def fallbackScan (entries : Table) (r : Request) (meth : String)
    (st : ScanState) : DispatchResult :=
  match entries with
  | [] => .routingError 404
  | (m, hs) :: rest =>
    if m == meth then fallbackScan rest r meth st
    else
      match fallbackInner hs r meth st with
      | some res => res
      | none => fallbackScan rest r meth st

/-- The components slice computed by ServeHTTP (line 60):
strings.Split(path[1:], "/"). -/
def reqComponents (r : Request) : List String :=
  (splitComps (r.path.data.drop 1)).map (fun cs => ⟨cs⟩)

/-- The lookup phase of ServeHTTP after path decomposition and method
override: the primary loop over the effective method's bindings, then
either the invocation, the idx == 0 NotFound, or the fallback scan run on
the final memoized state. -/
def dispatchLookup (tbl : Table) (r : Request) (meth : String)
    (components : List String) : DispatchResult :=
  match primaryLoop (lookupMeth tbl meth) { components := components, verb := "" } with
  | .invoked hf params => .invoked hf params
  | .colonNotFound => .routingError 404
  | .fallthru st => fallbackScan tbl r meth st

/-- ServeHTTP from mux_dynamic.go (lines 50-144): path validation, path
decomposition, method override, primary lookup, fallback classification. -/
def serveHTTP (tbl : Table) (r : Request) : DispatchResult :=
  if goHasPre r.path "/" = false then .routingError 400
  else
    match overrideStep r with
    | .error e => .formError e
    | .ok meth => dispatchLookup tbl r meth (reqComponents r)

/-- First match of the cross-method fallback scan, as a plain search: the
first binding (in table iteration order, skipping the effective method)
whose pattern matches the memoized state, with its parameters. -/
def findCrossMatch (entries : Table) (meth : String) (st : ScanState) :
    Option (handler × List (String × String)) :=
  match entries with
  | [] => none
  | (m, hs) :: rest =>
    if m == meth then findCrossMatch rest meth st
    else
      match hs.findSome? (fun b => (b.pat.matchFn st.components st.verb).map
        (fun params => (b, params))) with
      | some bp => some bp
      | none => findCrossMatch rest meth st

/-- Observable lock and invocation events of one ServeHTTP execution:
s.mu.RLock(), s.mu.RUnlock(), and a handler invocation h.h(...). -/
inductive LockEvent where
  | rlock
  | runlock
  | invoke (h : Nat)
deriving DecidableEq

/-- Events emitted inside the primary loop (mirroring mux_dynamic.go lines
76-109): the idx == 0 exit RUnlocks, a match RUnlocks and then invokes the
handler, and falling through emits nothing (the read lock is still held
when the fallback scan starts). -/
def primaryLoopEv : List handler → ScanState → List LockEvent
  | [], _ => []
  | b :: rest, st =>
    let lastComponent := st.components.getLast?.getD ""
    let idx := verbIdx b.pat.verb lastComponent
    if idx = 0 then [.runlock]
    else
      let st' := candidateState b.pat.verb st
      match b.pat.matchFn st'.components st'.verb with
      | some _ => [.runlock, .invoke b.h]
      | none => primaryLoopEv rest st'

/-- Events emitted by one method's inner fallback loop (lines 117-138): a
match RUnlocks and then either invokes (after a successful form parse) or
returns an error without invoking. -/
def fallbackInnerEv (hs : List handler) (r : Request) (meth : String)
    (st : ScanState) : Option (List LockEvent) :=
  match hs with
  | [] => none
  | b :: rest =>
    match b.pat.matchFn st.components st.verb with
    | some _ =>
      some (if r.plf meth = true then
              match r.formErr with
              | some _ => [LockEvent.runlock]
              | none => [LockEvent.runlock, .invoke b.h]
            else [LockEvent.runlock])
    | none => fallbackInnerEv rest r meth st

/-- Events emitted by the cross-method fallback scan (lines 113-143): when
nothing matches, the loop exits and RUnlocks before the NotFound report. -/
def fallbackScanEv (entries : Table) (r : Request) (meth : String)
    (st : ScanState) : List LockEvent :=
  match entries with
  | [] => [.runlock]
  | (m, hs) :: rest =>
    if m == meth then fallbackScanEv rest r meth st
    else
      match fallbackInnerEv hs r meth st with
      | some evs => evs
      | none => fallbackScanEv rest r meth st

/-- The full lock/invocation event trace of one ServeHTTP execution: the
error returns before line 75 emit nothing, every other execution RLocks
once and then runs the two loops. -/
def serveHTTPEv (tbl : Table) (r : Request) : List LockEvent :=
  if goHasPre r.path "/" = false then []
  else
    match overrideStep r with
    | .error _ => []
    | .ok meth =>
      let components := reqComponents r
      let hs := lookupMeth tbl meth
      let st0 : ScanState := { components := components, verb := "" }
      LockEvent.rlock ::
        (match primaryLoop hs st0 with
         | .fallthru st => primaryLoopEv hs st0 ++ fallbackScanEv tbl r meth st
         | _ => primaryLoopEv hs st0)

/-- Checks a trace against a lock counter: an invocation is admissible only
while no lock is held. -/
def lockedOk : List LockEvent → Nat → Bool
  | [], _ => true
  | .rlock :: rest, n => lockedOk rest (n + 1)
  | .runlock :: rest, n => lockedOk rest (n - 1)
  | .invoke _ :: rest, n => n = 0 && lockedOk rest n

/-- All bindings stored in the table, across methods. -/
def allBindings (tbl : Table) : List handler :=
  (tbl.map (fun e => e.2)).flatten

/-- The route-table invariant of spec section 3: within every method's
sequence, at most one binding carries a given pattern string. -/
def TableNodup (tbl : Table) : Prop :=
  ∀ m, ((lookupMeth tbl m).map (fun b => b.pat.str)).Nodup

/-- A table mutation: a registration (the replace-in-place Handle variant)
or a deregistration. -/
inductive TableOp where
  | reg (meth : String) (pat : Pattern) (hf : Nat)
  | dereg (meth : String) (pat : Pattern)

/-- Applies one table mutation. -/
def applyOp (tbl : Table) : TableOp → Table
  | .reg m p hf => HandleVariant tbl m p hf
  | .dereg m p => HandlerDeregister tbl m p

/-- Applies a sequence of table mutations, oldest first. -/
def applyOps (tbl : Table) : List TableOp → Table
  | [] => tbl
  | op :: rest => applyOps (applyOp tbl op) rest

/-- Sample pattern that matches nothing (string form /v1/a). -/
def patA : Pattern :=
  { str := "/v1/a", verb := "", matchFn := fun _ _ => none }

/-- Sample pattern matching exactly the single component path b. -/
def patB : Pattern :=
  { str := "/v1/b", verb := "",
    matchFn := fun cs v => if cs == ["b"] && v == "" then some [("x", "1")] else none }

/-- Sample pattern matching exactly the single component path c. -/
def patC : Pattern :=
  { str := "/v1/c", verb := "",
    matchFn := fun cs v => if cs == ["c"] && v == "" then some [] else none }

/-- Sample pattern expecting verb v on component res, matching nothing. -/
def patV : Pattern :=
  { str := "/v1/res:v", verb := "v", matchFn := fun _ _ => none }

/-- Sample pattern expecting the colon-bearing verb v:1. -/
def patColonVerb : Pattern :=
  { str := "/v1/res:v:1", verb := "v:1", matchFn := fun _ _ => none }

/-- Sample table: two never-matching GET bindings and one never-matching
POST binding. -/
def tblSample : Table :=
  [("GET", [{ pat := patA, h := 1 }, { pat := patB, h := 2 }, { pat := patA, h := 3 }]),
   ("POST", [{ pat := patC, h := 4 }])]

/-- Sample request: a plain GET for path /b with no override header, the
fallback condition never holding and a form that parses. -/
def reqB : Request :=
  { method := "GET", path := "/b", override := "", plf := fun _ => false,
    formErr := none }

/-- Sample request for path /c under GET where the fallback condition
holds and the form parses. -/
def reqC : Request :=
  { method := "GET", path := "/c", override := "", plf := fun _ => true,
    formErr := none }

/-- Sample request carrying an override header whose form fails to parse
while the fallback condition holds. -/
def reqOverrideBad : Request :=
  { method := "POST", path := "/x", override := "get", plf := fun _ => true,
    formErr := some "bad form" }

/-- Sample table whose patterns match nothing at all. -/
def tblNoMatch : Table :=
  [("GET", [{ pat := patA, h := 1 }]), ("POST", [{ pat := patV, h := 5 }])]

/-- Sample mutation sequence: registering the same pattern twice through the
replace-in-place variant, then deregistering another. -/
def opsDemo : List TableOp :=
  [TableOp.reg "GET" patA 1, TableOp.reg "GET" patA 2, TableOp.dereg "GET" patB]

/-! ### Association-table lemmas -/

theorem lookupMeth_nil (m : String) : lookupMeth [] m = [] := rfl

theorem lookupMeth_setMeth_self (tbl : Table) (meth : String) (hs : List handler) :
    lookupMeth (setMeth tbl meth hs) meth = hs := by
  induction tbl with
  | nil => simp [setMeth, lookupMeth, List.find?]
  | cons e rest ih =>
    obtain ⟨m, v⟩ := e
    by_cases h : m = meth
    · subst h
      simp [setMeth, lookupMeth, List.find?]
    · simpa [setMeth, lookupMeth, List.find?, h] using ih

theorem lookupMeth_setMeth_ne (tbl : Table) (meth m : String) (hs : List handler)
    (hne : m ≠ meth) :
    lookupMeth (setMeth tbl meth hs) m = lookupMeth tbl m := by
  have hmm : (meth == m) = false := beq_eq_false_iff_ne.mpr (fun h => hne h.symm)
  induction tbl with
  | nil => simp [setMeth, lookupMeth, List.find?, hmm]
  | cons e rest ih =>
    obtain ⟨k, v⟩ := e
    by_cases h : k = meth
    · subst h
      simp [setMeth, lookupMeth, List.find?, hmm]
    · by_cases hk : k = m
      · subst hk
        simp [setMeth, lookupMeth, List.find?, h]
      · have hkm : (k == m) = false := beq_eq_false_iff_ne.mpr hk
        simpa [setMeth, lookupMeth, List.find?, h, hkm] using ih

theorem mem_allBindings_of_mem_lookupMeth (tbl : Table) (meth : String)
    (b : handler) (hb : b ∈ lookupMeth tbl meth) : b ∈ allBindings tbl := by
  unfold lookupMeth at hb
  cases hfind : tbl.find? (fun e => e.1 == meth) with
  | none => rw [hfind] at hb; simp at hb
  | some e =>
    rw [hfind] at hb
    have he : e ∈ tbl := List.mem_of_find?_eq_some hfind
    unfold allBindings
    exact List.mem_flatten.mpr ⟨e.2, List.mem_map.mpr ⟨e, he, rfl⟩, hb⟩

/-! ### The span-copying loop computes a filter -/

theorem filter_span_eq (hs : List handler) (p : String) (offset idx : Nat)
    (hkeep : ∀ j (hj : j < hs.length), offset ≤ j → j < idx → hs[j].pat.str ≠ p) :
    ((hs.drop offset).take (idx - offset)).filter (fun b => b.pat.str != p)
      = (hs.drop offset).take (idx - offset) := by
  rw [List.filter_eq_self]
  intro a ha
  rcases List.mem_iff_getElem.mp ha with ⟨n, hn, hna⟩
  have hn1 : n < idx - offset := by
    have := hn
    simp only [List.length_take, List.length_drop, lt_min_iff] at this
    exact this.1
  have hn2 : n < (hs.drop offset).length := by
    have := hn
    simp only [List.length_take, List.length_drop, lt_min_iff] at this
    simpa using this.2
  have hn3 : offset + n < hs.length := by
    simp only [List.length_drop] at hn2
    omega
  have hval : a = hs[offset + n] := by
    rw [← hna, List.getElem_take, List.getElem_drop]
  have := hkeep (offset + n) hn3 (by omega) (by omega)
  rw [← hval] at this
  simpa using this

theorem filter_drop_eq (hs : List handler) (p : String) (o : Nat)
    (hkeep : ∀ j (hj : j < hs.length), o ≤ j → hs[j].pat.str ≠ p) :
    (hs.drop o).filter (fun b => b.pat.str != p) = hs.drop o := by
  rw [List.filter_eq_self]
  intro a ha
  rcases List.mem_iff_getElem.mp ha with ⟨n, hn, hna⟩
  have hn3 : o + n < hs.length := by
    simp only [List.length_drop] at hn
    omega
  have hval : a = hs[o + n] := by
    rw [← hna, List.getElem_drop]
  have := hkeep (o + n) hn3 (by omega)
  rw [← hval] at this
  simpa using this

theorem scanLoopAux_spec (hs : List handler) (p : String) :
    ∀ rem idx offset acc,
      rem = hs.drop idx →
      offset ≤ idx →
      offset ≤ hs.length →
      acc = (hs.take offset).filter (fun b => b.pat.str != p) →
      (∀ j (hj : j < hs.length), offset ≤ j → j < idx → hs[j].pat.str ≠ p) →
      (scanLoopAux hs p rem idx offset acc).1 ≤ hs.length ∧
      (scanLoopAux hs p rem idx offset acc).2
        = (hs.take (scanLoopAux hs p rem idx offset acc).1).filter
            (fun b => b.pat.str != p) ∧
      ∀ j (hj : j < hs.length), (scanLoopAux hs p rem idx offset acc).1 ≤ j →
        hs[j].pat.str ≠ p := by
  intro rem
  induction rem with
  | nil =>
    intro idx offset acc hrem hoi hol hacc hkeep
    have hlen : hs.length ≤ idx := List.drop_eq_nil_iff.mp hrem.symm
    exact ⟨hol, hacc, fun j hj hoj => hkeep j hj hoj (lt_of_lt_of_le hj hlen)⟩
  | cons b rem ih =>
    intro idx offset acc hrem hoi hol hacc hkeep
    have hidx : idx < hs.length := by
      by_contra hc
      push_neg at hc
      rw [List.drop_eq_nil_iff.mpr hc] at hrem
      exact List.cons_ne_nil _ _ hrem
    have hcons : b :: rem = hs[idx] :: hs.drop (idx + 1) :=
      hrem.trans (List.drop_eq_getElem_cons hidx)
    have hb : b = hs[idx] := by injection hcons
    have hrem' : rem = hs.drop (idx + 1) := by injection hcons
    by_cases hmatch : (b.pat.str == p) = true
    · have hbp : hs[idx].pat.str = p := by rw [← hb]; simpa using hmatch
      simp only [scanLoopAux, hmatch, if_true]
      apply ih (idx + 1) (idx + 1) _ hrem' (le_refl _) (by omega)
      · have htake1 : hs.take (idx + 1)
            = hs.take offset ++ (hs.drop offset).take (idx - offset) ++ [hs[idx]] := by
          have h1 : hs.take (idx + 1) = hs.take idx ++ [hs[idx]] := by
            rw [List.take_succ, List.getElem?_eq_getElem hidx]
            rfl
          have h2 : hs.take idx = hs.take offset ++ (hs.drop offset).take (idx - offset) := by
            have := List.take_add hs offset (idx - offset)
            rw [Nat.add_sub_cancel' hoi] at this
            exact this
          rw [h1, h2]
        rw [htake1, List.filter_append, List.filter_append, hacc,
          filter_span_eq hs p offset idx hkeep]
        have : [hs[idx]].filter (fun b => b.pat.str != p) = [] := by
          simp [List.filter, hbp]
        rw [this, List.append_nil]
      · intro j hj h1 h2
        omega
    · have hbk : hs[idx].pat.str ≠ p := by
        rw [← hb]
        simpa using hmatch
      simp only [scanLoopAux, hmatch, Bool.false_eq_true, if_false]
      apply ih (idx + 1) offset _ hrem' (by omega) hol hacc
      intro j hj h1 h2
      by_cases hje : j = idx
      · subst hje; exact hbk
      · exact hkeep j hj h1 (by omega)

theorem scanLoop_spec (hs : List handler) (p : String) :
    (scanLoop hs p).1 ≤ hs.length ∧
    (scanLoop hs p).2
      = (hs.take (scanLoop hs p).1).filter (fun b => b.pat.str != p) ∧
    ∀ j (hj : j < hs.length), (scanLoop hs p).1 ≤ j → hs[j].pat.str ≠ p := by
  apply scanLoopAux_spec hs p hs 0 0 [] rfl (le_refl _) (by omega) rfl
  intro j hj h1 h2
  omega

theorem scanLoop_rebuild (hs : List handler) (p : String) :
    (scanLoop hs p).2 ++ hs.drop (scanLoop hs p).1
      = hs.filter (fun b => b.pat.str != p) := by
  obtain ⟨hle, hacc, hkeep⟩ := scanLoop_spec hs p
  rw [hacc, ← filter_drop_eq hs p (scanLoop hs p).1 hkeep, ← List.filter_append,
    List.take_append_drop]


theorem handlerDeregister_lookup (tbl : Table) (meth : String) (pat : Pattern) :
    lookupMeth (HandlerDeregister tbl meth pat) meth
      = (lookupMeth tbl meth).filter (fun b => b.pat.str != pat.str) := by
  unfold HandlerDeregister
  by_cases h : (lookupMeth tbl meth).length = 0
  · rw [List.length_eq_zero] at h
    simp [h]
  · simp only [h, if_false]
    rw [lookupMeth_setMeth_self, scanLoop_rebuild]

theorem handlerDeregister_lookup_ne (tbl : Table) (meth m : String) (pat : Pattern)
    (hne : m ≠ meth) :
    lookupMeth (HandlerDeregister tbl meth pat) m = lookupMeth tbl m := by
  unfold HandlerDeregister
  by_cases h : (lookupMeth tbl meth).length = 0
  · simp [h]
  · simp only [h, if_false]
    exact lookupMeth_setMeth_ne tbl meth m _ hne

theorem scanLoopVariantAux_eq (hs : List handler) (p : String) :
    ∀ rem idx offset acc,
      scanLoopVariantAux hs p rem idx offset acc = scanLoopAux hs p rem idx offset acc := by
  intro rem
  induction rem with
  | nil => intro idx offset acc; rfl
  | cons b rem ih =>
    intro idx offset acc
    simp only [scanLoopVariantAux, scanLoopAux]
    by_cases h : (b.pat.str == p) = true
    · simp [h, ih]
    · simp only [h, Bool.false_eq_true, if_false]
      exact ih _ _ _

theorem scanLoopVariant_eq (hs : List handler) (p : String) :
    scanLoopVariant hs p = scanLoop hs p :=
  scanLoopVariantAux_eq hs p hs 0 0 []

theorem handleVariant_lookup (tbl : Table) (meth : String) (pat : Pattern) (hf : Nat) :
    lookupMeth (HandleVariant tbl meth pat hf) meth
      = (lookupMeth tbl meth).filter (fun b => b.pat.str != pat.str)
          ++ [{ pat := pat, h := hf }] := by
  unfold HandleVariant
  simp only [scanLoopVariant_eq]
  obtain ⟨hle, hacc, hkeep⟩ := scanLoop_spec (lookupMeth tbl meth) pat.str
  by_cases h : (scanLoop (lookupMeth tbl meth) pat.str).1 = 0
  · simp only [h, if_true]
    rw [lookupMeth_setMeth_self]
    have hfix : (lookupMeth tbl meth).filter (fun b => b.pat.str != pat.str)
        = lookupMeth tbl meth := by
      have := filter_drop_eq (lookupMeth tbl meth) pat.str 0
        (fun j hj _ => hkeep j hj (by omega))
      simpa using this
    rw [hfix]
  · simp only [h, if_false]
    rw [lookupMeth_setMeth_self, scanLoop_rebuild]

theorem handleVariant_lookup_ne (tbl : Table) (meth m : String) (pat : Pattern)
    (hf : Nat) (hne : m ≠ meth) :
    lookupMeth (HandleVariant tbl meth pat hf) m = lookupMeth tbl m := by
  unfold HandleVariant
  by_cases h : (scanLoopVariant (lookupMeth tbl meth) pat.str).1 = 0
  · simp only [h, if_true]
    exact lookupMeth_setMeth_ne tbl meth m _ hne
  · simp only [h, if_false]
    exact lookupMeth_setMeth_ne tbl meth m _ hne

theorem handle_lookup (tbl : Table) (meth : String) (pat : Pattern) (hf : Nat) :
    lookupMeth (Handle tbl meth pat hf) meth
      = { pat := pat, h := hf } :: lookupMeth tbl meth :=
  lookupMeth_setMeth_self tbl meth _

theorem handle_lookup_ne (tbl : Table) (meth m : String) (pat : Pattern) (hf : Nat)
    (hne : m ≠ meth) :
    lookupMeth (Handle tbl meth pat hf) m = lookupMeth tbl m :=
  lookupMeth_setMeth_ne tbl meth m _ hne

/-! ### Fallback scan versus first cross-method match -/

theorem fallbackInner_eq_find (hs : List handler) (r : Request) (meth : String)
    (st : ScanState) :
    fallbackInner hs r meth st
      = (hs.findSome? (fun b => (b.pat.matchFn st.components st.verb).map
          (fun params => (b, params)))).map
          (fun bp => if r.plf meth = true then
              match r.formErr with
              | some e => DispatchResult.formError e
              | none => DispatchResult.invoked bp.1.h bp.2
            else DispatchResult.routingError 405) := by
  induction hs with
  | nil => rfl
  | cons b rest ih =>
    simp only [fallbackInner, List.findSome?_cons]
    cases hm : b.pat.matchFn st.components st.verb with
    | some params => simp [hm]
    | none => simpa [hm] using ih

theorem fallbackScan_eq_find (entries : Table) (r : Request) (meth : String)
    (st : ScanState) :
    fallbackScan entries r meth st
      = match findCrossMatch entries meth st with
        | none => DispatchResult.routingError 404
        | some bp =>
          if r.plf meth = true then
            match r.formErr with
            | some e => DispatchResult.formError e
            | none => DispatchResult.invoked bp.1.h bp.2
          else DispatchResult.routingError 405 := by
  induction entries with
  | nil => rfl
  | cons e rest ih =>
    obtain ⟨m, hs⟩ := e
    simp only [fallbackScan, findCrossMatch]
    by_cases hm : (m == meth) = true
    · simp only [hm, if_true]
      exact ih
    · simp only [hm, Bool.false_eq_true, if_false]
      rw [fallbackInner_eq_find]
      cases hf : hs.findSome? (fun b => (b.pat.matchFn st.components st.verb).map
          (fun params => (b, params))) with
      | none => simpa [hf] using ih
      | some bp => simp [hf]

/-! ### Colon-head lemmas for the verb-stripping step -/

theorem verbIdx_ne_zero_of_head (pv last : String)
    (hhead : last.data.head? ≠ some ':') : verbIdx pv last ≠ 0 := by
  unfold verbIdx
  by_cases hc : pv ≠ "" ∧ goHasSuffix last (":" ++ pv) = true
  · simp only [hc, if_true]
    intro h0
    have hsuf : (":" ++ pv).data <:+ last.data :=
      List.isSuffixOf_iff_suffix.mp hc.2
    have hdata : (":" ++ pv).data = ':' :: pv.data := by
      rw [String.data_append]; rfl
    have hlen : last.data.length = pv.data.length + 1 := by
      simp only [goLen] at h0
      omega
    have heq : (":" ++ pv).data = last.data := by
      apply List.IsSuffix.eq_of_length hsuf
      rw [hdata]
      simp [hlen]
    rw [← heq, hdata] at hhead
    exact hhead rfl
  · simp only [hc, if_false]
    decide

theorem verbIdx_pos (pv last : String) (hv : pv ≠ "")
    (hsuf : goHasSuffix last (":" ++ pv) = true) (hne : verbIdx pv last ≠ 0) :
    0 < verbIdx pv last := by
  have hc : pv ≠ "" ∧ goHasSuffix last (":" ++ pv) = true := ⟨hv, hsuf⟩
  have hsx : (":" ++ pv).data <:+ last.data := List.isSuffixOf_iff_suffix.mp hsuf
  have hlen : (":" ++ pv).data.length ≤ last.data.length := hsx.length_le
  have hdata : (":" ++ pv).data = ':' :: pv.data := by
    rw [String.data_append]; rfl
  rw [hdata] at hlen
  simp only [List.length_cons] at hlen
  have hval : verbIdx pv last = (goLen last : Int) - goLen pv - 1 := by
    unfold verbIdx
    simp [hc]
  rw [hval] at hne ⊢
  simp only [goLen] at hne ⊢
  omega

theorem head?_take_of_pos {α : Type} (l : List α) (n : Nat) (h : 0 < n) :
    (l.take n).head? = l.head? := by
  rw [List.head?_take]
  simp [Nat.pos_iff_ne_zero.mp h]

theorem candidateState_colon (pv : String) (st : ScanState)
    (hhead : (st.components.getLast?.getD "").data.head? ≠ some ':') :
    ((candidateState pv st).components.getLast?.getD "").data.head? ≠ some ':' := by
  unfold candidateState
  by_cases hidx : 0 < verbIdx pv (st.components.getLast?.getD "")
  · simp only [hidx, if_true, List.getLast?_concat, Option.getD_some]
    show ((goTake (st.components.getLast?.getD "")
      (verbIdx pv (st.components.getLast?.getD "")).toNat).data).head? ≠ some ':'
    unfold goTake
    rw [head?_take_of_pos]
    · exact hhead
    · omega
  · simp only [hidx, if_false]
    exact hhead

/-! ### Behaviour when no pattern matches anything -/

theorem primaryLoop_allfail (hs : List handler)
    (hfail : ∀ b ∈ hs, ∀ cs v, b.pat.matchFn cs v = none) :
    ∀ st, (st.components.getLast?.getD "").data.head? ≠ some ':' →
      ∃ st', primaryLoop hs st = .fallthru st' ∧ primaryLoopEv hs st = [] ∧
        (st'.components.getLast?.getD "").data.head? ≠ some ':' := by
  induction hs with
  | nil => exact fun st hst => ⟨st, rfl, rfl, hst⟩
  | cons b rest ih =>
    intro st hst
    have hidx := verbIdx_ne_zero_of_head b.pat.verb
      (st.components.getLast?.getD "") hst
    have hm := hfail b (by simp) (candidateState b.pat.verb st).components
      (candidateState b.pat.verb st).verb
    have hst' := candidateState_colon b.pat.verb st hst
    obtain ⟨st', h1, h2, h3⟩ :=
      ih (fun x hx => hfail x (by simp [hx])) (candidateState b.pat.verb st) hst'
    refine ⟨st', ?_, ?_, h3⟩
    · simp only [primaryLoop, hidx, if_false, hm]
      exact h1
    · simp only [primaryLoopEv, hidx, if_false, hm]
      exact h2

theorem fallbackInner_allfail (hs : List handler) (r : Request) (meth : String)
    (st : ScanState)
    (hfail : ∀ b ∈ hs, ∀ cs v, b.pat.matchFn cs v = none) :
    fallbackInner hs r meth st = none ∧ fallbackInnerEv hs r meth st = none := by
  induction hs with
  | nil => exact ⟨rfl, rfl⟩
  | cons b rest ih =>
    have hm := hfail b (by simp) st.components st.verb
    have := ih (fun x hx => hfail x (by simp [hx]))
    constructor
    · simp only [fallbackInner, hm]
      exact this.1
    · simp only [fallbackInnerEv, hm]
      exact this.2

theorem fallbackScan_allfail (entries : Table) (r : Request) (meth : String)
    (st : ScanState)
    (hfail : ∀ m hs, (m, hs) ∈ entries → ∀ b ∈ hs, ∀ cs v, b.pat.matchFn cs v = none) :
    fallbackScan entries r meth st = .routingError 404 ∧
    fallbackScanEv entries r meth st = [.runlock] := by
  induction entries with
  | nil => exact ⟨rfl, rfl⟩
  | cons e rest ih =>
    obtain ⟨m, hs⟩ := e
    have hinner := fallbackInner_allfail hs r meth st
      (fun b hb => hfail m hs (by simp) b hb)
    have hrest := ih (fun m' hs' hmem => hfail m' hs' (by simp [hmem]))
    by_cases hm : (m == meth) = true
    · constructor
      · simp only [fallbackScan, hm, if_true]
        exact hrest.1
      · simp only [fallbackScanEv, hm, if_true]
        exact hrest.2
    · constructor
      · simp only [fallbackScan, hm, Bool.false_eq_true, if_false, hinner.1]
        exact hrest.1
      · simp only [fallbackScanEv, hm, Bool.false_eq_true, if_false, hinner.2]
        exact hrest.2

/-! ### Event-trace shapes -/

theorem primaryLoopEv_of_outcome (hs : List handler) :
    ∀ st,
      (∀ st', primaryLoop hs st = .fallthru st' → primaryLoopEv hs st = []) ∧
      (primaryLoop hs st = .colonNotFound → primaryLoopEv hs st = [.runlock]) ∧
      (∀ hI p, primaryLoop hs st = .invoked hI p →
        primaryLoopEv hs st = [.runlock, .invoke hI]) := by
  induction hs with
  | nil =>
    intro st
    refine ⟨fun st' _ => rfl, fun hcon => ?_, fun hI p hcon => ?_⟩
    · exact absurd hcon (by simp [primaryLoop])
    · exact absurd hcon (by simp [primaryLoop])
  | cons b rest ih =>
    intro st
    by_cases hidx : verbIdx b.pat.verb (st.components.getLast?.getD "") = 0
    · refine ⟨fun st' hcon => ?_, fun _ => ?_, fun hI p hcon => ?_⟩
      · exact absurd hcon (by simp [primaryLoop, hidx])
      · simp [primaryLoopEv, hidx]
      · exact absurd hcon (by simp [primaryLoop, hidx])
    · cases hm : b.pat.matchFn (candidateState b.pat.verb st).components
        (candidateState b.pat.verb st).verb with
      | some params =>
        refine ⟨fun st' hcon => ?_, fun hcon => ?_, fun hI p hcon => ?_⟩
        · exact absurd hcon (by simp [primaryLoop, hidx, hm])
        · exact absurd hcon (by simp [primaryLoop, hidx, hm])
        · have : b.h = hI := by
            have := hcon
            simp only [primaryLoop, hidx, if_false, hm] at this
            injection this
          simp [primaryLoopEv, hidx, hm, this]
      | none =>
        obtain ⟨ih1, ih2, ih3⟩ := ih (candidateState b.pat.verb st)
        refine ⟨fun st' hcon => ?_, fun hcon => ?_, fun hI p hcon => ?_⟩
        · simp only [primaryLoop, hidx, if_false, hm] at hcon
          simp only [primaryLoopEv, hidx, if_false, hm]
          exact ih1 st' hcon
        · simp only [primaryLoop, hidx, if_false, hm] at hcon
          simp only [primaryLoopEv, hidx, if_false, hm]
          exact ih2 hcon
        · simp only [primaryLoop, hidx, if_false, hm] at hcon
          simp only [primaryLoopEv, hidx, if_false, hm]
          exact ih3 hI p hcon

theorem fallbackInnerEv_shape (hs : List handler) (r : Request) (meth : String)
    (st : ScanState) :
    fallbackInnerEv hs r meth st = none ∨
    fallbackInnerEv hs r meth st = some [.runlock] ∨
    ∃ hI, fallbackInnerEv hs r meth st = some [.runlock, .invoke hI] := by
  induction hs with
  | nil => exact Or.inl rfl
  | cons b rest ih =>
    cases hm : b.pat.matchFn st.components st.verb with
    | some params =>
      by_cases hplf : r.plf meth = true
      · cases hfe : r.formErr with
        | some e =>
          refine Or.inr (Or.inl ?_)
          simp [fallbackInnerEv, hm, hplf, hfe]
        | none =>
          refine Or.inr (Or.inr ⟨b.h, ?_⟩)
          simp [fallbackInnerEv, hm, hplf, hfe]
      · refine Or.inr (Or.inl ?_)
        simp [fallbackInnerEv, hm, hplf]
    | none =>
      have := ih
      simpa [fallbackInnerEv, hm] using this

theorem fallbackScanEv_shape (entries : Table) (r : Request) (meth : String)
    (st : ScanState) :
    fallbackScanEv entries r meth st = [.runlock] ∨
    ∃ hI, fallbackScanEv entries r meth st = [.runlock, .invoke hI] := by
  induction entries with
  | nil => exact Or.inl rfl
  | cons e rest ih =>
    obtain ⟨m, hs⟩ := e
    by_cases hm : (m == meth) = true
    · simpa [fallbackScanEv, hm] using ih
    · rcases fallbackInnerEv_shape hs r meth st with h | h | ⟨hI, h⟩
      · simpa [fallbackScanEv, hm, h] using ih
      · exact Or.inl (by simp [fallbackScanEv, hm, h])
      · exact Or.inr ⟨hI, by simp [fallbackScanEv, hm, h]⟩

/-! ### Claim theorems -/

/-- C1 (deregister exactness): for every routing table, method M and pattern
p, HandlerDeregister(M, p) leaves under M exactly the prior bindings whose
pattern string differs from p.String(), in their original relative order (a
filter of the prior sequence), and leaves every other method's bindings
unchanged; it is a total function, so in particular it never errors, and
when M has no bindings or none match the filter is the identity, making the
call a no-op. -/
theorem C1_deregister_exactness (tbl : Table) (meth : String) (pat : Pattern) :
    lookupMeth (HandlerDeregister tbl meth pat) meth
      = (lookupMeth tbl meth).filter (fun b => b.pat.str != pat.str) ∧
    ∀ m, m ≠ meth →
      lookupMeth (HandlerDeregister tbl meth pat) m = lookupMeth tbl m :=
  ⟨handlerDeregister_lookup tbl meth pat,
   fun m hm => handlerDeregister_lookup_ne tbl meth m pat hm⟩

/-- Witness for C1 at a concrete table: deregistering the never-matching
pattern under GET filters exactly its two occurrences and leaves POST
untouched. -/
theorem C1_deregister_exactness_witness :
    lookupMeth (HandlerDeregister tblSample "GET" patA) "GET"
      = (lookupMeth tblSample "GET").filter (fun b => b.pat.str != patA.str) ∧
    lookupMeth (HandlerDeregister tblSample "GET" patA) "POST"
      = lookupMeth tblSample "POST" :=
  ⟨(C1_deregister_exactness tblSample "GET" patA).1,
   (C1_deregister_exactness tblSample "GET" patA).2 "POST" (by decide)⟩

/-- C9 (deregister variant equivalence): the HandlerDeregister of
mux_dynamic.go and the variant one embedded in mux_dynamic_test.go produce
identical tables on every input. -/
theorem C9_deregister_variant_equivalence (tbl : Table) (meth : String)
    (pat : Pattern) :
    HandlerDeregisterVariant tbl meth pat = HandlerDeregister tbl meth pat := by
  unfold HandlerDeregisterVariant HandlerDeregister
  simp only [scanLoopVariant_eq]

theorem nodup_filter_strings (hs : List handler) (p : String)
    (h : (hs.map (fun b => b.pat.str)).Nodup) :
    ((hs.filter (fun b => b.pat.str != p)).map (fun b => b.pat.str)).Nodup :=
  List.Nodup.sublist (List.Sublist.map _ (List.filter_sublist hs)) h

theorem tableNodup_handlerDeregister (tbl : Table) (meth : String) (pat : Pattern)
    (hinv : TableNodup tbl) : TableNodup (HandlerDeregister tbl meth pat) := by
  intro m
  by_cases hm : m = meth
  · subst hm
    rw [handlerDeregister_lookup]
    exact nodup_filter_strings _ _ (hinv m)
  · rw [handlerDeregister_lookup_ne tbl meth m pat hm]
    exact hinv m

theorem tableNodup_handleVariant (tbl : Table) (meth : String) (pat : Pattern)
    (hf : Nat) (hinv : TableNodup tbl) : TableNodup (HandleVariant tbl meth pat hf) := by
  intro m
  by_cases hm : m = meth
  · subst hm
    rw [handleVariant_lookup]
    rw [List.map_append]
    rw [List.nodup_append]
    refine ⟨nodup_filter_strings _ _ (hinv m), List.nodup_singleton _, ?_⟩
    intro a ha hamem
    have ha2 : a = pat.str := by simpa using hamem
    rcases List.mem_map.mp ha with ⟨b, hb, hba⟩
    have := List.of_mem_filter hb
    rw [hba] at this
    simp only [bne_iff_ne, ne_eq] at this
    exact this ha2
  · rw [handleVariant_lookup_ne tbl meth m pat hf hm]
    exact hinv m

/-- C2 counterexample: the claim fails on the mux_dynamic.go Handle, which
prepends without removing an existing binding of the same pattern string —
two Handle calls for the same pattern leave two bindings with that string
under GET. -/
theorem C2_counterexample :
    ¬ (((lookupMeth (Handle (Handle [] "GET" patA 1) "GET" patA 2) "GET").map
        (fun b => b.pat.str)).Nodup) := by
  decide

/-- C2 (corrected, no-duplicate invariant): as stated the claim is false for
the Handle of mux_dynamic.go (see the counterexample).  It holds for the
replace-in-place Handle variant embedded in mux_dynamic_test.go: starting
from a table in which every method's sequence carries pairwise distinct
pattern strings, any sequence of variant-Handle and HandlerDeregister calls
preserves that invariant. -/
theorem C2_noduplicate_invariant (ops : List TableOp) (tbl : Table)
    (hinv : TableNodup tbl) : TableNodup (applyOps tbl ops) := by
  induction ops generalizing tbl with
  | nil => exact hinv
  | cons op rest ih =>
    cases op with
    | reg m p hf => exact ih _ (tableNodup_handleVariant tbl m p hf hinv)
    | dereg m p => exact ih _ (tableNodup_handlerDeregister tbl m p hinv)

/-- Witness for C2 at a concrete mutation sequence: registering the same
pattern twice through the variant Handle and deregistering another leaves
GET duplicate-free. -/
theorem C2_noduplicate_invariant_witness :
    ((lookupMeth (applyOps [] opsDemo) "GET").map (fun b => b.pat.str)).Nodup :=
  C2_noduplicate_invariant opsDemo []
    (fun m => by simp [lookupMeth, List.find?]) "GET"

/-- C3 (register/lookup round trip): after Handle(M, p, h), a request with
method M (no override header) and a well-formed path whose per-pattern
stripped components and verb p matches is dispatched to h with exactly the
parameters p.Match returned; the new binding is scanned first (Handle
prepends), so no earlier binding exists, and the event trace ends at the
invocation — no further bindings are tried. -/
theorem C3_register_lookup_roundtrip (tbl : Table) (r : Request) (pat : Pattern)
    (hf : Nat) (params : List (String × String))
    (hpath : goHasPre r.path "/" = true)
    (hover : r.override = "")
    (hidx : verbIdx pat.verb ((reqComponents r).getLast?.getD "") ≠ 0)
    (hmatch : pat.matchFn
        (candidateState pat.verb { components := reqComponents r, verb := "" }).components
        (candidateState pat.verb { components := reqComponents r, verb := "" }).verb
      = some params) :
    serveHTTP (Handle tbl r.method pat hf) r = .invoked hf params ∧
    serveHTTPEv (Handle tbl r.method pat hf) r
      = [.rlock, .runlock, .invoke hf] := by
  have hov : overrideStep r = .ok r.method := by
    unfold overrideStep
    simp [hover]
  have hlk := handle_lookup tbl r.method pat hf
  constructor
  · unfold serveHTTP
    rw [hov]
    simp only [hpath, Bool.true_eq_false, if_false]
    unfold dispatchLookup
    rw [hlk]
    simp only [primaryLoop, hidx, if_false, hmatch]
  · unfold serveHTTPEv
    rw [hov]
    simp only [hpath, Bool.true_eq_false, if_false]
    rw [hlk]
    simp only [primaryLoop, primaryLoopEv, hidx, if_false, hmatch]

/-- Witness for C3: registering the single-component pattern for path b
under GET and dispatching GET /b invokes the new handler with its
parameters, the trace ending at the invocation. -/
theorem C3_register_lookup_roundtrip_witness :
    serveHTTP (Handle [] "GET" patB 7) reqB = .invoked 7 [("x", "1")] ∧
    serveHTTPEv (Handle [] "GET" patB 7) reqB
      = [.rlock, .runlock, .invoke 7] :=
  C3_register_lookup_roundtrip [] reqB patB 7 [("x", "1")]
    (by decide) (by decide) (by decide) (by decide)

/-- C4 (fallback classification): when the primary loop for the effective
method falls through and some binding under another method matches the
memoized components/verb, dispatch either parses the form and invokes that
first cross-method match (form failure giving the InvalidArgument error)
when the path-length-fallback condition holds, or reports
MethodNotAllowed when it does not. -/
theorem C4_fallback_classification (tbl : Table) (r : Request) (meth : String)
    (st : ScanState) (b : handler) (params : List (String × String))
    (hpath : goHasPre r.path "/" = true)
    (hover : overrideStep r = .ok meth)
    (hprim : primaryLoop (lookupMeth tbl meth)
        { components := reqComponents r, verb := "" } = .fallthru st)
    (hfind : findCrossMatch tbl meth st = some (b, params)) :
    serveHTTP tbl r
      = if r.plf meth = true then
          match r.formErr with
          | some e => DispatchResult.formError e
          | none => DispatchResult.invoked b.h params
        else DispatchResult.routingError 405 := by
  unfold serveHTTP
  rw [hover]
  simp only [hpath, Bool.true_eq_false, if_false]
  unfold dispatchLookup
  rw [hprim]
  show fallbackScan tbl r meth st = _
  rw [fallbackScan_eq_find, hfind]

/-- Witness for C4: a GET request for path /c matching only the POST
binding, with the fallback condition holding and the form parsing, is
dispatched to the POST handler. -/
theorem C4_fallback_classification_witness :
    serveHTTP tblSample reqC = .invoked 4 [] := by
  have h := C4_fallback_classification tblSample reqC "GET"
    { components := ["c"], verb := "" } { pat := patC, h := 4 } []
    (by decide) (by rfl) (by decide) (by rfl)
  simpa [reqC] using h

/-- C5 (verb disambiguation): for any candidate pattern whose verb is the
colon-bearing v:1 and any matching state whose last component is res:v:1,
the per-pattern stripping step hands Match the last component res and the
verb v:1, whereas the last-colon split of the variant file's eager strategy
(strings.LastIndex) would split the same component into res:v and 1. -/
theorem C5_verb_disambiguation (pat : Pattern) (st : ScanState)
    (hverb : pat.verb = "v:1")
    (hlast : st.components.getLast?.getD "" = "res:v:1") :
    candidateState pat.verb st
      = { components := st.components.dropLast ++ ["res"], verb := "v:1" } ∧
    (goTake "res:v:1" (goLastIndexColon "res:v:1").toNat,
     goDrop "res:v:1" ((goLastIndexColon "res:v:1").toNat + 1)) = ("res:v", "1") := by
  constructor
  · have h3 : verbIdx "v:1" "res:v:1" = 3 := by decide
    have htake : goTake "res:v:1" ((3 : Int)).toNat = "res" := by decide
    have hdrop : goDrop "res:v:1" (((3 : Int)).toNat + 1) = "v:1" := by decide
    unfold candidateState
    simp only [hverb, hlast, h3]
    rw [if_pos (by decide : (0 : Int) < 3), htake, hdrop]
  · decide

/-- Witness for C5 on a concrete one-component state. -/
theorem C5_verb_disambiguation_witness :
    candidateState patColonVerb.verb { components := ["res:v:1"], verb := "" }
      = { components := [] ++ ["res"], verb := "v:1" } :=
  (C5_verb_disambiguation patColonVerb
    { components := ["res:v:1"], verb := "" } (by decide) (by decide)).1

/-- C6 counterexample: the claim as stated is false — a request with a
well-formed path (leading slash, no leading-colon last component) that
matches nothing (the table is empty) but carries an override header with a
failing form parse under the fallback condition terminates with the form
error, not NotFound. -/
theorem C6_counterexample :
    goHasPre reqOverrideBad.path "/" = true ∧
    ((reqComponents reqOverrideBad).getLast?.getD "").data.head? ≠ some ':' ∧
    allBindings ([] : Table) = [] ∧
    serveHTTP [] reqOverrideBad = .formError "bad form" ∧
    serveHTTP [] reqOverrideBad ≠ .routingError 404 :=
  ⟨by decide, by decide, rfl, by rfl, by decide⟩

/-- C6 (corrected, NotFound completeness): for a request with a well-formed
path (leading slash, no leading-colon last component) that does not take
the method-override form-parse failure path, if no pattern in the table
matches anything, dispatch reports NotFound and invokes no handler (the
trace is lock, unlock, with no invocation). -/
theorem C6_notfound_completeness (tbl : Table) (r : Request)
    (hpath : goHasPre r.path "/" = true)
    (hcolon : ((reqComponents r).getLast?.getD "").data.head? ≠ some ':')
    (hform : (r.override ≠ "" ∧ r.plf r.method = true) → r.formErr = none)
    (hmatch : ∀ b ∈ allBindings tbl, ∀ cs v, b.pat.matchFn cs v = none) :
    serveHTTP tbl r = .routingError 404 ∧
    serveHTTPEv tbl r = [.rlock, .runlock] := by
  obtain ⟨meth, hov⟩ : ∃ meth, overrideStep r = .ok meth := by
    unfold overrideStep
    by_cases hc : r.override ≠ "" ∧ r.plf r.method = true
    · refine ⟨goToUpper r.override, ?_⟩
      simp [hc, hform hc]
    · exact ⟨r.method, by simp [hc]⟩
  have hfail : ∀ b ∈ lookupMeth tbl meth, ∀ cs v, b.pat.matchFn cs v = none :=
    fun b hb => hmatch b (mem_allBindings_of_mem_lookupMeth tbl meth b hb)
  obtain ⟨st', h1, h2, h3⟩ := primaryLoop_allfail (lookupMeth tbl meth) hfail
    { components := reqComponents r, verb := "" } hcolon
  have hfb := fallbackScan_allfail tbl r meth st'
    (fun m hs hmem b hb => hmatch b (by
      unfold allBindings
      exact List.mem_flatten.mpr ⟨hs, List.mem_map.mpr ⟨(m, hs), hmem, rfl⟩, hb⟩))
  constructor
  · unfold serveHTTP
    rw [hov]
    simp only [hpath, Bool.true_eq_false, if_false]
    unfold dispatchLookup
    rw [h1]
    exact hfb.1
  · unfold serveHTTPEv
    rw [hov]
    simp only [hpath, Bool.true_eq_false, if_false]
    rw [h1]
    show LockEvent.rlock
        :: (primaryLoopEv (lookupMeth tbl meth)
              { components := reqComponents r, verb := "" }
            ++ fallbackScanEv tbl r meth st') = _
    rw [h2, hfb.2]
    rfl

/-- Witness for C6 at a concrete never-matching table and a plain GET. -/
theorem C6_notfound_completeness_witness :
    serveHTTP tblNoMatch reqB = .routingError 404 ∧
    serveHTTPEv tblNoMatch reqB = [.rlock, .runlock] :=
  C6_notfound_completeness tblNoMatch reqB (by decide) (by decide)
    (by intro h; exact absurd rfl h.1)
    (by
      intro b hb cs v
      have : b = { pat := patA, h := 1 } ∨ b = { pat := patV, h := 5 } := by
        simpa [allBindings, tblNoMatch] using hb
      rcases this with h | h <;> subst h <;> rfl)

/-- C7 (method override): for a request with a well-formed path carrying a
non-empty X-HTTP-Method-Override header, exactly when the
path-length-fallback condition holds the effective lookup method becomes
the upper-cased header value with the form parsed first — a parse failure
terminating dispatch with the error message and no handler invocation (an
empty event trace) — while otherwise the lookup proceeds under the
unchanged request method. -/
theorem C7_method_override (tbl : Table) (r : Request)
    (hpath : goHasPre r.path "/" = true)
    (hover : r.override ≠ "") :
    (r.plf r.method = true →
      (∀ e, r.formErr = some e →
        serveHTTP tbl r = .formError e ∧ serveHTTPEv tbl r = []) ∧
      (r.formErr = none →
        serveHTTP tbl r
          = dispatchLookup tbl r (goToUpper r.override) (reqComponents r))) ∧
    (r.plf r.method = false →
      serveHTTP tbl r = dispatchLookup tbl r r.method (reqComponents r)) := by
  constructor
  · intro hplf
    constructor
    · intro e he
      have hov : overrideStep r = .error e := by
        unfold overrideStep
        simp [hover, hplf, he]
      constructor
      · unfold serveHTTP
        rw [hov]
        simp [hpath]
      · unfold serveHTTPEv
        rw [hov]
        simp [hpath]
    · intro he
      have hov : overrideStep r = .ok (goToUpper r.override) := by
        unfold overrideStep
        simp [hover, hplf, he]
      unfold serveHTTP
      rw [hov]
      simp [hpath]
  · intro hplf
    have hov : overrideStep r = .ok r.method := by
      unfold overrideStep
      simp [hover, hplf]
    unfold serveHTTP
    rw [hov]
    simp [hpath]

/-- Witness for C7: an overriding request whose form fails to parse under
the fallback condition terminates with the form error and an empty trace. -/
theorem C7_method_override_witness :
    serveHTTP tblSample reqOverrideBad = .formError "bad form" ∧
    serveHTTPEv tblSample reqOverrideBad = [] :=
  ((C7_method_override tblSample reqOverrideBad (by decide) (by decide)).1
    (by decide)).1 "bad form" (by decide)

/-- C8 (no lock during handler execution): in the event trace of every
dispatch the read lock is released before any handler invocation — the
lock counter is zero at every invoke event — so a registration or
deregistration taking the exclusive lock never waits on a running handler. -/
theorem C8_no_lock_during_handler (tbl : Table) (r : Request) :
    lockedOk (serveHTTPEv tbl r) 0 = true := by
  unfold serveHTTPEv
  by_cases hp : goHasPre r.path "/" = false
  · simp [hp, lockedOk]
  · have hp' : goHasPre r.path "/" = true := by
      revert hp
      cases goHasPre r.path "/" <;> simp
    simp only [hp', Bool.true_eq_false, if_false]
    cases ho : overrideStep r with
    | error e => simp [lockedOk]
    | ok meth =>
      obtain ⟨e1, e2, e3⟩ := primaryLoopEv_of_outcome (lookupMeth tbl meth)
        { components := reqComponents r, verb := "" }
      dsimp only
      cases hout : primaryLoop (lookupMeth tbl meth)
          { components := reqComponents r, verb := "" } with
      | invoked hI p =>
        show lockedOk (LockEvent.rlock :: primaryLoopEv (lookupMeth tbl meth)
          { components := reqComponents r, verb := "" }) 0 = true
        rw [e3 hI p hout]
        simp [lockedOk]
      | colonNotFound =>
        show lockedOk (LockEvent.rlock :: primaryLoopEv (lookupMeth tbl meth)
          { components := reqComponents r, verb := "" }) 0 = true
        rw [e2 hout]
        simp [lockedOk]
      | fallthru st =>
        show lockedOk (LockEvent.rlock :: (primaryLoopEv (lookupMeth tbl meth)
          { components := reqComponents r, verb := "" }
            ++ fallbackScanEv tbl r meth st)) 0 = true
        rw [e1 st hout]
        rcases fallbackScanEv_shape tbl r meth st with h | ⟨hI, h⟩ <;>
          rw [h] <;> simp [lockedOk]

/-- C10 (stripped-component persistence): when a candidate's verb suffix is
found on the last component (strip applied, not the leading-colon case)
and its Match fails, the candidate state records the overwritten last
component and the memoized verb, the rest of the primary loop runs on
exactly that state, and when the loop then falls through the fallback scan
is run on the final memoized state. -/
theorem C10_stripped_component_persistence (b : handler) (rest : List handler)
    (st : ScanState)
    (hv : b.pat.verb ≠ "")
    (hsuf : goHasSuffix (st.components.getLast?.getD "") (":" ++ b.pat.verb) = true)
    (hidx : verbIdx b.pat.verb (st.components.getLast?.getD "") ≠ 0)
    (hfail : b.pat.matchFn (candidateState b.pat.verb st).components
        (candidateState b.pat.verb st).verb = none) :
    candidateState b.pat.verb st
      = { components := st.components.dropLast
            ++ [goTake (st.components.getLast?.getD "")
                 (verbIdx b.pat.verb (st.components.getLast?.getD "")).toNat],
          verb := goDrop (st.components.getLast?.getD "")
                 ((verbIdx b.pat.verb (st.components.getLast?.getD "")).toNat + 1) } ∧
    primaryLoop (b :: rest) st = primaryLoop rest (candidateState b.pat.verb st) ∧
    (∀ tbl (r : Request) meth st', st.verb = "" → lookupMeth tbl meth = b :: rest →
      primaryLoop rest (candidateState b.pat.verb st) = .fallthru st' →
      dispatchLookup tbl r meth st.components = fallbackScan tbl r meth st') := by
  have hpos := verbIdx_pos b.pat.verb _ hv hsuf hidx
  have hstep : primaryLoop (b :: rest) st
      = primaryLoop rest (candidateState b.pat.verb st) := by
    simp only [primaryLoop, hidx, if_false, hfail]
  refine ⟨?_, hstep, ?_⟩
  · unfold candidateState
    rw [if_pos hpos]
  · intro tbl r meth st' hverb hlk hfall
    unfold dispatchLookup
    rw [hlk]
    have hsteq : ({ components := st.components, verb := "" } : ScanState) = st := by
      cases st
      simp only at hverb ⊢
      rw [hverb]
    rw [hsteq, hstep, hfall]

/-- Witness for C10 on a one-binding table: the verb v is stripped from
res:v, the failing candidate hands the stripped state to the rest of the
loop, and dispatch runs the fallback scan on that state. -/
theorem C10_stripped_component_persistence_witness :
    primaryLoop [{ pat := patV, h := 5 }] { components := ["res:v"], verb := "" }
      = primaryLoop []
          (candidateState patV.verb { components := ["res:v"], verb := "" }) ∧
    dispatchLookup [("GET", [{ pat := patV, h := 5 }])] reqB "GET" ["res:v"]
      = fallbackScan [("GET", [{ pat := patV, h := 5 }])] reqB "GET"
          (candidateState patV.verb { components := ["res:v"], verb := "" }) := by
  have h := C10_stripped_component_persistence { pat := patV, h := 5 } []
    { components := ["res:v"], verb := "" } (by decide) (by decide) (by decide)
    (by rfl)
  exact ⟨h.2.1,
    h.2.2 [("GET", [{ pat := patV, h := 5 }])] reqB "GET"
      (candidateState patV.verb { components := ["res:v"], verb := "" })
      rfl rfl rfl⟩

end DynMux
